import Mathlib

/-!
Shallow embedding of the core of the `unipile-cli` repository (TypeScript) in
Lean 4, together with proofs about the natural-language specification.

Embedded modules:
* `src/resolver.ts` — contact resolution (normalization, lexical scoring,
  recency scoring, QMD semantic boost, ranking and the resolve decision).
* `src/inbox-state.ts` — scope keys, cursor arithmetic and the sqlite-backed
  inbox state store (modelled as pure state passing over association lists,
  mirroring the SQL statements row by row).
* `src/index.ts` — the pagination loop `collectPagedMessages`.

Modelling conventions:
* JavaScript numbers are modelled as `ℚ` (scores) and `ℤ` (epoch
  milliseconds); all constants in the source are exactly representable.
* `Date.parse` is a host function; it is passed in as an explicit
  `dateParse : String → Option Int` argument (`none` models `NaN`).
* String normalization (`normalize` in `resolver.ts`) applies
  `toLowerCase`, Unicode NFKD, strips `[^a-z0-9\s]` to spaces, collapses
  whitespace and trims.  NFKD is the identity on the ASCII strings modelled
  here, `toLowerCase` is modelled by `Char.toLower`.
-/

namespace Unipile

/-! ### Generic association-list helpers (model of `Map`/sqlite keyed rows) -/

/-- Looks up the first value stored under key `k` in an association list. -/
def alookup {κ α : Type} [DecidableEq κ] (k : κ) : List (κ × α) → Option α
  | [] => none
  | (k', v) :: rest => if k' = k then some v else alookup k rest

/-- Sets key `k` to `v`: updates the first matching entry in place, else
appends (the behaviour of both JS `Map.set` and SQL upsert). -/
def aset {κ α : Type} [DecidableEq κ] (k : κ) (v : α) : List (κ × α) → List (κ × α)
  | [] => [(k, v)]
  | (k', v') :: rest => if k' = k then (k, v) :: rest else (k', v') :: aset k v rest

theorem alookup_append {κ α : Type} [DecidableEq κ] (k : κ) (l₁ l₂ : List (κ × α)) :
    alookup k (l₁ ++ l₂) = ((alookup k l₁).orElse fun _ => alookup k l₂) := by
  induction l₁ with
  | nil => simp [alookup, Option.orElse]
  | cons e rest ih =>
    obtain ⟨k', v⟩ := e
    by_cases h : k' = k <;> simp [alookup, h, ih, Option.orElse]

theorem alookup_aset_self {κ α : Type} [DecidableEq κ] (k : κ) (v : α) (l : List (κ × α)) :
    alookup k (aset k v l) = some v := by
  induction l with
  | nil => simp [aset, alookup]
  | cons e rest ih =>
    obtain ⟨k', v'⟩ := e
    by_cases h : k' = k <;> simp [aset, alookup, h, ih]

/-! ### `resolver.ts` — normalization and tokenization -/

/-- Decides membership in the regex class `[a-z0-9]` (the kept characters of
`normalize`, which runs after lower-casing). -/
def isLowerAlnum (c : Char) : Bool :=
  ('a' ≤ c && c ≤ 'z') || ('0' ≤ c && c ≤ '9')

/-- Decides membership in the regex whitespace class `\s` (restricted to the
ASCII whitespace characters modelled here). -/
def isJsWhitespace (c : Char) : Bool :=
  c = ' ' || c = '\t' || c = '\n' || c = '\r' || c = '\x0b' || c = '\x0c'

/-- Models one character step of `.replace(/[^a-z0-9\s]/g, " ")`. -/
def stripChar (c : Char) : Char :=
  if isLowerAlnum c || isJsWhitespace c then c else ' '

/-- Splits a character list into maximal whitespace-free words; `cur` holds
the characters of the current word in reverse.  Together with
`String.intercalate " "` this models `.replace(/\s+/g, " ").trim()`. -/
def wordsAux : List Char → List Char → List String
  | [], cur => if cur.isEmpty then [] else [String.mk cur.reverse]
  | c :: rest, cur =>
    if isJsWhitespace c then
      if cur.isEmpty then wordsAux rest [] else String.mk cur.reverse :: wordsAux rest []
    else wordsAux rest (c :: cur)

/-- Computes the word list of the lower-cased, punctuation-stripped input. -/
def jsTokens (s : String) : List String :=
  wordsAux ((s.data.map Char.toLower).map stripChar) []

/-- Models `normalize` from `resolver.ts`: lower-case, (NFKD,) strip
`[^a-z0-9\s]` to spaces, collapse whitespace, trim. -/
def normalize (s : String) : String :=
  String.intercalate " " (jsTokens s)

/-- Models `tokenize` from `resolver.ts`: the normalized string split on
single spaces, empty when the normalized string is empty. -/
def tokenize (s : String) : List String :=
  jsTokens s

/-- Models JS `String.prototype.includes`: substring containment. -/
def strIncludes (hay pat : String) : Bool :=
  hay.data.tails.any fun t => pat.data.isPrefixOf t

/-! ### `resolver.ts` — data model (`types.ts`) -/

/-- Models the `ChatAttendee` interface of `types.ts` (`is_self : 0 | 1`). -/
structure ChatAttendee where
  id : String
  account_id : String
  provider_id : String
  name : String
  is_self : Nat
deriving DecidableEq, Repr

/-- Models the fields of the `Chat` interface used by the recency scorer. -/
structure Chat where
  id : String
  account_id : String
  attendee_provider_id : Option String
  timestamp : Option String
deriving DecidableEq, Repr

/-- Models the `QmdHit` interface of `types.ts`. -/
structure QmdHit where
  text : String
  source : Option String
deriving DecidableEq, Repr

/-- Models the `QmdQueryResult` interface of `types.ts`. -/
structure QmdQueryResult where
  available : Bool
  hits : List QmdHit
deriving DecidableEq, Repr

/-- Models the `ContactCandidate` interface of `types.ts`. -/
structure ContactCandidate where
  attendee : ChatAttendee
  lexicalScore : ℚ
  recencyScore : ℚ
  qmdScore : ℚ
  totalScore : ℚ
  matchedBy : List String
deriving DecidableEq, Repr

/-- Models the `ResolutionStatus` union of `types.ts`. -/
inductive ResolutionStatus where
  | resolved
  | ambiguous
  | not_found
deriving DecidableEq, Repr

/-- Models the `ContactResolution` interface of `types.ts` (the optional
`selected` field becomes an `Option`). -/
structure ContactResolution where
  query : String
  status : ResolutionStatus
  selected : Option ContactCandidate
  candidates : List ContactCandidate
  threshold : ℚ
  margin : ℚ
deriving DecidableEq, Repr

/-- Models the `{score, matchedBy}` result of `lexicalScore`. -/
structure LexicalResult where
  score : ℚ
  matchedBy : List String
deriving DecidableEq, Repr

/-! ### `resolver.ts` — lexical scoring -/

/-- Models `lexicalScore` from `resolver.ts` line for line: priority-ordered
identity/substring matches, then token-overlap as a scaled harmonic mean of
recall and precision. -/
def lexicalScore (query : String) (attendee : ChatAttendee) : LexicalResult :=
  let queryNorm := normalize query
  let nameNorm := normalize attendee.name
  let attendeeIdNorm := normalize attendee.id
  let providerIdNorm := normalize attendee.provider_id
  if queryNorm.length = 0 then ⟨0, []⟩
  else if queryNorm = attendeeIdNorm ∨ queryNorm = providerIdNorm then ⟨1, ["exact_id"]⟩
  else if strIncludes providerIdNorm queryNorm then ⟨0.95, ["provider_id_contains"]⟩
  else if nameNorm = queryNorm then ⟨0.94, ["exact_name"]⟩
  else if strIncludes nameNorm queryNorm then ⟨0.9, ["name_contains"]⟩
  else
    let queryTokens := tokenize query
    let nameTokens := tokenize attendee.name
    if queryTokens.length = 0 ∨ nameTokens.length = 0 then ⟨0, []⟩
    else
      let overlapCount := (queryTokens.filter fun token => nameTokens.contains token).length
      if overlapCount = 0 then ⟨0, []⟩
      else
        let tokenRecall : ℚ := (overlapCount : ℚ) / (queryTokens.length : ℚ)
        let tokenPrecision : ℚ := (overlapCount : ℚ) / (nameTokens.length : ℚ)
        let overlapScore := (2 * tokenRecall * tokenPrecision) / (tokenRecall + tokenPrecision)
        ⟨overlapScore * 0.88, ["token_overlap"]⟩

/-! ### `resolver.ts` — recency scoring -/

/-- Models the raw-map building loop of `buildRecencyScoreByProviderId`:
the most recent parsable timestamp per attendee provider id.  JS truthiness
is modelled faithfully: a missing or empty provider id is skipped, a missing,
empty or unparsable timestamp is skipped, and a stored value of `0` is falsy
(`!current`), so it is overwritten by any parsable timestamp. -/
def buildRawRecency (dateParse : String → Option Int) :
    List Chat → List (String × Int) → List (String × Int)
  | [], rawMap => rawMap
  | chat :: rest, rawMap =>
    match chat.attendee_provider_id with
    | none => buildRawRecency dateParse rest rawMap
    | some providerId =>
      if providerId = "" then buildRawRecency dateParse rest rawMap
      else
        let parsed : Option Int :=
          match chat.timestamp with
          | none => none
          | some t => if t = "" then none else dateParse t
        match parsed with
        | none => buildRawRecency dateParse rest rawMap
        | some timestamp =>
          match alookup providerId rawMap with
          | none => buildRawRecency dateParse rest (aset providerId timestamp rawMap)
          | some current =>
            if current = 0 ∨ timestamp > current then
              buildRawRecency dateParse rest (aset providerId timestamp rawMap)
            else buildRawRecency dateParse rest rawMap

/-- Models `buildRecencyScoreByProviderId` from `resolver.ts`: min-max
normalization of the per-provider maxima, `0.5` for every entry when all
values tie, empty map when no chat contributed. -/
def buildRecencyScoreByProviderId (dateParse : String → Option Int) (chats : List Chat) :
    List (String × ℚ) :=
  match buildRawRecency dateParse chats [] with
  | [] => []
  | e :: rest =>
    let values := (e :: rest).map Prod.snd
    let least := values.foldl min e.2
    let greatest := values.foldl max e.2
    (e :: rest).map fun p =>
      (p.1,
        if greatest = least then (0.5 : ℚ)
        else ((p.2 : ℚ) - (least : ℚ)) / ((greatest : ℚ) - (least : ℚ)))

/-! ### `resolver.ts` — QMD semantic boost -/

/-- Models the hit loop of `qmdBoost`: running maximum of per-hit scores.
`1` for a provider-id substring hit, `0.8` for a name substring hit, else
the fraction of name tokens present in the hit scaled by `0.6`. -/
def qmdBestFold (name providerId : String) (nameTokens : List String) :
    List QmdHit → ℚ → ℚ
  | [], best => best
  | hit :: rest, best =>
    if providerId.length > 0
        ∧ strIncludes (normalize (hit.text ++ " " ++ hit.source.getD "")) providerId then
      qmdBestFold name providerId nameTokens rest (max best 1)
    else if name.length > 0
        ∧ strIncludes (normalize (hit.text ++ " " ++ hit.source.getD "")) name then
      qmdBestFold name providerId nameTokens rest (max best 0.8)
    else if nameTokens.length > 0 then
      qmdBestFold name providerId nameTokens rest
        (max best
          (((nameTokens.filter fun token =>
              strIncludes (normalize (hit.text ++ " " ++ hit.source.getD "")) token).length : ℚ)
            / (nameTokens.length : ℚ) * 0.6))
    else qmdBestFold name providerId nameTokens rest best

/-- Models `qmdBoost` from `resolver.ts`. -/
def qmdBoost (attendee : ChatAttendee) (qmdResult : QmdQueryResult) : ℚ :=
  if qmdResult.available = false ∨ qmdResult.hits.length = 0 then 0
  else
    qmdBestFold (normalize attendee.name) (normalize attendee.provider_id)
      (tokenize attendee.name) qmdResult.hits 0

/-! ### `resolver.ts` — ranking and resolution -/

/-- Models the per-attendee candidate construction inside `rankContacts`:
weighted blend `0.75·lexical + 0.15·recency + 0.1·qmd` and the extra
`recent_chat` / `qmd_context` reason tags. -/
def scoreAttendee (query : String) (recencyByProviderId : List (String × ℚ))
    (qmdResult : QmdQueryResult) (attendee : ChatAttendee) : ContactCandidate :=
  let lexical := lexicalScore query attendee
  let recencyScore := (alookup attendee.provider_id recencyByProviderId).getD 0
  let qmdScore := qmdBoost attendee qmdResult
  let totalScore := lexical.score * 0.75 + recencyScore * 0.15 + qmdScore * 0.1
  let matchedBy :=
    lexical.matchedBy
      ++ (if recencyScore ≥ 0.65 then ["recent_chat"] else [])
      ++ (if qmdScore ≥ 0.5 then ["qmd_context"] else [])
  ⟨attendee, lexical.score, recencyScore, qmdScore, totalScore, matchedBy⟩

/-- Ordering relation of the candidate sort: descending `totalScore`
(the JS comparator `right.totalScore - left.totalScore`, stable). -/
def candGE (a b : ContactCandidate) : Prop :=
  b.totalScore ≤ a.totalScore

instance : DecidableRel candGE := fun a b =>
  inferInstanceAs (Decidable (b.totalScore ≤ a.totalScore))

instance : IsTotal ContactCandidate candGE :=
  ⟨fun a b => le_total b.totalScore a.totalScore⟩

instance : IsTrans ContactCandidate candGE :=
  ⟨fun _ _ _ h₁ h₂ => le_trans h₂ h₁⟩

/-- Models `rankContacts` from `resolver.ts`: exclude self attendees,
score each, sort by descending total score (stable sort, as ES2019 `sort`). -/
def rankContacts (dateParse : String → Option Int) (query : String)
    (attendees : List ChatAttendee) (chats : List Chat)
    (qmdResult : QmdQueryResult) : List ContactCandidate :=
  let recencyByProviderId := buildRecencyScoreByProviderId dateParse chats
  List.insertionSort candGE
    ((attendees.filter fun attendee => attendee.is_self != 1).map
      (scoreAttendee query recencyByProviderId qmdResult))

/-- Models the `options` parameter of `resolveContacts`. -/
structure ResolverOptions where
  threshold : Option ℚ
  margin : Option ℚ
  maxCandidates : Option Nat
deriving DecidableEq, Repr

/-- Models the decision tail of `resolveContacts` (everything after
`const ranked = ...`): the not_found floor `0.35`, the resolved test
`top.totalScore >= threshold && delta >= margin` with
`delta = second ? top.totalScore - second.totalScore : top.totalScore`,
else ambiguous. -/
def decideResolution (query : String) (ranked : List ContactCandidate)
    (threshold margin : ℚ) : ContactResolution :=
  match ranked.head? with
  | none => ⟨query, .not_found, none, ranked, threshold, margin⟩
  | some top =>
    if top.totalScore < 0.35 then ⟨query, .not_found, none, ranked, threshold, margin⟩
    else
      let delta :=
        match ranked[1]? with
        | some second => top.totalScore - second.totalScore
        | none => top.totalScore
      if threshold ≤ top.totalScore ∧ margin ≤ delta then
        ⟨query, .resolved, some top, ranked, threshold, margin⟩
      else ⟨query, .ambiguous, some top, ranked, threshold, margin⟩

/-- Models `resolveContacts` from `resolver.ts` (defaults
`threshold = 0.9`, `margin = 0.15`, `maxCandidates = 5`; the ranked list is
truncated by `.slice(0, maxCandidates)` before the decision). -/
def resolveContacts (dateParse : String → Option Int) (query : String)
    (attendees : List ChatAttendee) (chats : List Chat)
    (qmdResult : QmdQueryResult) (options : ResolverOptions) : ContactResolution :=
  let threshold := options.threshold.getD 0.9
  let margin := options.margin.getD 0.15
  let maxCandidates := options.maxCandidates.getD 5
  decideResolution query
    ((rankContacts dateParse query attendees chats qmdResult).take maxCandidates)
    threshold margin

/-! ### `inbox-state.ts` — scope keys -/

/-- Models the first-insertion-order deduplication of `new Set(...)` in
`normalizeChatIds` (JS `Set` keeps the first occurrence of each element). -/
def jsSetDedup : List String → List String
  | [] => []
  | x :: xs => x :: jsSetDedup (xs.filter fun y => y ≠ x)
termination_by l => l.length
decreasing_by
  simp only [List.length_cons]
  exact Nat.lt_succ_of_le (List.length_filter_le _ xs)

/-- Models `normalizeChatIds` from `inbox-state.ts`: trim each id, drop
blanks, deduplicate, sort (the `localeCompare` comparator is modelled as the
lexicographic order on strings). -/
def normalizeChatIds (chatIds : List String) : List String :=
  List.insertionSort (fun a b => a ≤ b)
    (jsSetDedup ((chatIds.map String.trim).filter fun chatId => chatId.length != 0))

/-- Models the `InboxScopeDescriptor` interface of `inbox-state.ts`. -/
structure InboxScopeDescriptor where
  profileName : String
  accountId : String
  chatIds : List String
  senderId : Option String
  customStateKey : Option String
deriving DecidableEq, Repr

/-- Models the non-custom branch of `buildInboxScopeKey`: chat ids joined by
commas (or `*`), trimmed sender id (or `*`). -/
def buildDefaultScopeKey (scope : InboxScopeDescriptor) : String :=
  let chatScope :=
    if scope.chatIds.length > 0 then String.intercalate "," scope.chatIds else "*"
  let senderScope :=
    match scope.senderId.map String.trim with
    | some s => if s.length > 0 then s else "*"
    | none => "*"
  scope.profileName ++ "|" ++ scope.accountId ++ "|chat=" ++ chatScope
    ++ "|sender=" ++ senderScope

/-- Models `buildInboxScopeKey` from `inbox-state.ts`: a non-blank trimmed
custom key wins, else the composed default key. -/
def buildInboxScopeKey (scope : InboxScopeDescriptor) : String :=
  match scope.customStateKey.map String.trim with
  | some custom =>
    if custom.length > 0 then scope.profileName ++ "|" ++ custom
    else buildDefaultScopeKey scope
  | none => buildDefaultScopeKey scope

/-! ### `inbox-state.ts` — cursor arithmetic -/

/-- Models `CURSOR_OVERLAP_MS` from `inbox-state.ts`. -/
def CURSOR_OVERLAP_MS : Int := 1000

/-- Models one element of the `timestamps.map(...)` in
`computeNextSinceCursor`: missing, blank-after-trim or unparsable values
become `none`. -/
def parseTimestampEntry (dateParse : String → Option Int) : Option String → Option Int
  | none => none
  | some v => if v.trim.length = 0 then none else dateParse v

/-- Computes the candidate list of `computeNextSinceCursor`: parsable batch
timestamps, then the parsable current cursor appended (JS truthiness makes
an empty `currentSince` string falsy). -/
def cursorCandidates (dateParse : String → Option Int) (currentSince : Option String)
    (timestamps : List (Option String)) : List Int :=
  (timestamps.filterMap (parseTimestampEntry dateParse))
    ++ (match currentSince with
        | none => []
        | some s =>
          if s = "" then []
          else match dateParse s with
            | none => []
            | some c => [c])

/-- Models `computeNextSinceCursor` from `inbox-state.ts`.  The result
`Sum.inl s` stands for returning the string `s` unchanged (the
no-candidate path), `Sum.inr m` stands for
`new Date(m).toISOString()` with `m` the computed epoch-millisecond value
`Math.max(0, newest - CURSOR_OVERLAP_MS)`. -/
def computeNextSinceCursor (dateParse : String → Option Int) (currentSince : Option String)
    (timestamps : List (Option String)) : Option (String ⊕ Int) :=
  match cursorCandidates dateParse currentSince timestamps with
  | [] => currentSince.map Sum.inl
  | c :: cs =>
    let newest := cs.foldl max c
    some (Sum.inr (max 0 (newest - CURSOR_OVERLAP_MS)))

/-! ### `inbox-state.ts` — the state store -/

/-- Models the `Message` interface of `types.ts`. -/
structure Message where
  id : String
  account_id : String
  chat_id : String
  sender_id : String
  text : Option String
  timestamp : Option String
deriving DecidableEq, Repr

/-- Models one row of the `inbox_message_store` table; the `payload_json`
column (`JSON.stringify(message)`) is modelled as the message value. -/
structure ArchiveRow where
  chat_id : Option String
  sender_id : Option String
  timestamp : Option String
  payload : Message
  first_seen_at : String
  last_seen_at : String
deriving DecidableEq, Repr

/-- Models one row of the `watch_scope_state` table; the `chat_ids` JSON
text column is modelled as the list value. -/
structure ScopeRow where
  profile_name : String
  account_id : String
  chat_ids : List String
  sender_id : Option String
  since_cursor : Option String
  updated_at : String
deriving DecidableEq, Repr

/-- Models the three tables of the sqlite inbox store: `watch_scope_state`
keyed by `scope_key`, `inbox_message_store` keyed by
`(account_id, message_id)`, `scope_message_seen` keyed by
`(scope_key, account_id, message_id)` with the `seen_at` value. -/
structure InboxStateStore where
  watch_scope_state : List (String × ScopeRow)
  inbox_message_store : List ((String × String) × ArchiveRow)
  scope_message_seen : List ((String × String × String) × String)
deriving DecidableEq, Repr

/-- Models `PersistedMessageResult` from `inbox-state.ts`. -/
structure PersistedMessageResult where
  isNewForScope : Bool
  isNewInStore : Bool
deriving DecidableEq, Repr

/-- Models `InboxStateStore.getCursor`: point lookup of the scope row's
`since_cursor`. -/
def getCursor (store : InboxStateStore) (scopeKey : String) : Option String :=
  match alookup scopeKey store.watch_scope_state with
  | none => none
  | some row => row.since_cursor

/-- Models `InboxStateStore.upsertScopeState` (`INSERT ... ON CONFLICT
UPDATE`); `now` models `new Date().toISOString()`. -/
def upsertScopeState (store : InboxStateStore) (now scopeKey profileName accountId : String)
    (chatIds : List String) (senderId : Option String) (sinceCursor : Option String) :
    InboxStateStore :=
  { store with
      watch_scope_state :=
        aset scopeKey ⟨profileName, accountId, chatIds, senderId, sinceCursor, now⟩
          store.watch_scope_state }

/-- Models `InboxStateStore.resetScope`: `DELETE FROM scope_message_seen
WHERE scope_key = ?` then `DELETE FROM watch_scope_state WHERE
scope_key = ?`. -/
def resetScope (store : InboxStateStore) (scopeKey : String) : InboxStateStore :=
  { store with
      scope_message_seen := store.scope_message_seen.filter fun e => e.1.1 != scopeKey,
      watch_scope_state := store.watch_scope_state.filter fun e => e.1 != scopeKey }

/-- Models the `SET` clause of `updateMessageStmt`: every column except the
primary key and `first_seen_at` is overwritten. -/
def archiveUpdate (message : Message) (now : String) (row : ArchiveRow) : ArchiveRow :=
  { row with
      chat_id := some message.chat_id
      sender_id := some message.sender_id
      timestamp := message.timestamp
      payload := message
      last_seen_at := now }

/-- Models `InboxStateStore.persistMessage`: `INSERT OR IGNORE` into the
global archive (update payload and `last_seen_at` in place on conflict,
preserving `first_seen_at`), then `INSERT OR IGNORE` of the per-scope seen
mark; returns the two independent novelty flags.  `now` models
`new Date().toISOString()`. -/
def persistMessage (store : InboxStateStore) (now scopeKey : String) (message : Message) :
    PersistedMessageResult × InboxStateStore :=
  let key := (message.account_id, message.id)
  let isNewInStore := (alookup key store.inbox_message_store).isNone
  let archive :=
    if isNewInStore then
      store.inbox_message_store
        ++ [(key, ⟨some message.chat_id, some message.sender_id, message.timestamp,
                   message, now, now⟩)]
    else
      store.inbox_message_store.map fun e =>
        (e.1, if e.1 = key then archiveUpdate message now e.2 else e.2)
  let seenKey := (scopeKey, message.account_id, message.id)
  let isNewForScope := (alookup seenKey store.scope_message_seen).isNone
  let seen :=
    if isNewForScope then store.scope_message_seen ++ [(seenKey, now)]
    else store.scope_message_seen
  (⟨isNewForScope, isNewInStore⟩,
   { store with inbox_message_store := archive, scope_message_seen := seen })

/-! ### `index.ts` — the pagination loop -/

/-- Models one page response of the `fetchPage` callback of
`collectPagedMessages` (`{items, cursor}`; a non-string cursor is `none`). -/
structure PageResponse where
  items : List Message
  cursor : Option String
deriving Repr

/-- Models the `for` loop of `collectPagedMessages`.  `fetchPage` takes the
page index and the request cursor (providers may be stateful in the page
index).  The `Nat` component of the result counts the pages actually
requested; the loop stops on fuel exhaustion (`maxPages`), a non-string
cursor, a blank cursor, or a cursor already seen in this loop. -/
def collectPagedMessagesGo (fetchPage : Nat → Option String → PageResponse) :
    Nat → Nat → Option String → List String → List Message → List Message × Nat
  | 0, _, _, _, collected => (collected, 0)
  | fuel + 1, page, cursor, seenCursors, collected =>
    let response := fetchPage page cursor
    let collected := collected ++ response.items
    match response.cursor with
    | none => (collected, 1)
    | some nextCursor =>
      if nextCursor.trim.length = 0 ∨ seenCursors.contains nextCursor then (collected, 1)
      else
        let rest := collectPagedMessagesGo fetchPage fuel (page + 1) (some nextCursor)
          (nextCursor :: seenCursors) collected
        (rest.1, rest.2 + 1)

/-- Models `collectPagedMessages` from `index.ts` together with the number
of pages requested. -/
def collectPagedMessages (fetchPage : Nat → Option String → PageResponse)
    (maxPages : Nat) : List Message × Nat :=
  collectPagedMessagesGo fetchPage maxPages 0 none [] []

/-! ### Association-list lemmas used by the store proofs -/

theorem alookup_orElse_none {κ α : Type} [DecidableEq κ] (k : κ) (l : List (κ × α)) :
    ((alookup k l).orElse fun _ => none) = alookup k l := by
  cases alookup k l <;> rfl

theorem alookup_singleton_ne {κ α : Type} [DecidableEq κ] (k k' : κ) (v : α) (h : k' ≠ k) :
    alookup k [(k', v)] = none := by
  simp [alookup, h]

theorem alookup_map_update {κ α : Type} [DecidableEq κ] (k key : κ) (upd : α → α)
    (l : List (κ × α)) :
    alookup k (l.map fun e => (e.1, if e.1 = key then upd e.2 else e.2))
      = if k = key then (alookup k l).map upd else alookup k l := by
  induction l with
  | nil => by_cases h : k = key <;> simp [alookup, h]
  | cons e rest ih =>
    obtain ⟨k', v⟩ := e
    simp only [List.map_cons, alookup]
    by_cases hkk : k' = k
    · subst hkk
      by_cases hk : k' = key <;> simp [hk]
    · simp [hkk, ih]

theorem alookup_filter_key {κ α : Type} [DecidableEq κ] (p : κ → Bool) (k : κ)
    (l : List (κ × α)) (hk : p k = false) :
    alookup k (l.filter fun e => p e.1) = none := by
  induction l with
  | nil => rfl
  | cons e rest ih =>
    obtain ⟨k', v⟩ := e
    by_cases hp : p k' = true
    · have hne : k' ≠ k := fun h => by rw [h, hk] at hp; exact Bool.false_ne_true hp
      simp [List.filter, hp, alookup, hne, ih]
    · simp only [List.filter_cons, hp, Bool.false_eq_true, if_neg, if_false]
      simpa using ih

/-! ### Behaviour of `persistMessage` -/

theorem persistMessage_isNewInStore (store : InboxStateStore) (now scopeKey : String)
    (message : Message) :
    (persistMessage store now scopeKey message).1.isNewInStore
      = (alookup (message.account_id, message.id) store.inbox_message_store).isNone := rfl

theorem persistMessage_isNewForScope (store : InboxStateStore) (now scopeKey : String)
    (message : Message) :
    (persistMessage store now scopeKey message).1.isNewForScope
      = (alookup (scopeKey, message.account_id, message.id) store.scope_message_seen).isNone :=
  rfl

theorem persistMessage_archive_lookup (store : InboxStateStore) (now scopeKey : String)
    (message : Message) :
    alookup (message.account_id, message.id)
        (persistMessage store now scopeKey message).2.inbox_message_store
      = some (match alookup (message.account_id, message.id) store.inbox_message_store with
              | none =>
                ⟨some message.chat_id, some message.sender_id, message.timestamp,
                 message, now, now⟩
              | some row => archiveUpdate message now row) := by
  cases h : alookup (message.account_id, message.id) store.inbox_message_store with
  | none =>
    simp only [persistMessage, h, Option.isNone_none, if_pos]
    rw [alookup_append, h]
    simp [alookup, Option.orElse]
  | some row =>
    simp only [persistMessage, h, Option.isNone_some, Bool.false_eq_true, if_false]
    rw [alookup_map_update, if_pos rfl, h]
    rfl

theorem persistMessage_seen_lookup_self (store : InboxStateStore) (now scopeKey : String)
    (message : Message) :
    (alookup (scopeKey, message.account_id, message.id)
        (persistMessage store now scopeKey message).2.scope_message_seen).isSome = true := by
  cases h : alookup (scopeKey, message.account_id, message.id) store.scope_message_seen with
  | none =>
    simp only [persistMessage, h, Option.isNone_none, if_pos]
    rw [alookup_append, h]
    simp [alookup, Option.orElse]
  | some v =>
    simp only [persistMessage, h, Option.isNone_some, Bool.false_eq_true, if_false]
    rfl

theorem persistMessage_seen_lookup_other (store : InboxStateStore) (now scopeKey : String)
    (message : Message) (otherKey : String × String × String)
    (h : otherKey ≠ (scopeKey, message.account_id, message.id)) :
    alookup otherKey (persistMessage store now scopeKey message).2.scope_message_seen
      = alookup otherKey store.scope_message_seen := by
  cases hx : alookup (scopeKey, message.account_id, message.id) store.scope_message_seen with
  | none =>
    simp only [persistMessage, hx, Option.isNone_none, if_pos]
    rw [alookup_append,
      alookup_singleton_ne otherKey (scopeKey, message.account_id, message.id) now (Ne.symm h)]
    exact alookup_orElse_none _ _
  | some v =>
    simp only [persistMessage, hx, Option.isNone_some, Bool.false_eq_true, if_false]

theorem alookup_filter_ne_key {α : Type} (k : String) (l : List (String × α)) :
    alookup k (l.filter fun e => e.1 != k) = none := by
  induction l with
  | nil => rfl
  | cons e rest ih =>
    obtain ⟨k', v⟩ := e
    by_cases h : k' = k
    · simp [List.filter, h, ih]
    · simp only [List.filter_cons]
      have : (k' != k) = true := by simp [h]
      simp [this, alookup, h, ih]

theorem alookup_filter_fst_ne {α : Type} (k a b : String)
    (l : List ((String × String × String) × α)) :
    alookup (k, a, b) (l.filter fun e => e.1.1 != k) = none := by
  induction l with
  | nil => rfl
  | cons e rest ih =>
    obtain ⟨⟨k', a', b'⟩, v⟩ := e
    by_cases h : k' = k
    · simp [List.filter, h, ih]
    · simp only [List.filter_cons]
      have hcond : (k' != k) = true := by simp [h]
      have hne : (k', a', b') ≠ (k, a, b) := by simp [h]
      simp [hcond, alookup, hne, ih]

theorem persistedResult_eq (r : PersistedMessageResult) (f s : Bool)
    (hf : r.isNewForScope = f) (hs : r.isNewInStore = s) : r = ⟨f, s⟩ := by
  cases r; simp_all

/-! ### Concrete fixtures used by witnesses and counterexamples -/

/-- Fixture: a `Date.parse` model that parses nothing (no chat recency). -/
def dateParseNone : String → Option Int := fun _ => none

/-- Fixture: a `Date.parse` model for the two epoch-adjacent ISO timestamps
used by the cursor counterexample (`Date.parse` of these strings yields `0`
and `500` milliseconds). -/
def dateParseEpoch : String → Option Int := fun s =>
  if s = "1970-01-01T00:00:00.500Z" then some 500
  else if s = "1970-01-01T00:00:00.000Z" then some 0
  else none

/-- Fixture: an unavailable QMD oracle result. -/
def qmdUnavailable : QmdQueryResult := ⟨false, []⟩

/-- Fixture: a non-self attendee whose provider id is the literal query
`"x"`. -/
def attendeeX : ChatAttendee := ⟨"i", "acct", "x", "n", 0⟩

/-- Fixture: a non-self attendee named `"a"`, matched by the duplicated
query `"a a a"`. -/
def attendeeDup : ChatAttendee := ⟨"i", "acct", "zz", "a", 0⟩

/-- Fixture: one message row. -/
def msgOne : Message := ⟨"m1", "a", "c1", "s1", none, none⟩

/-- Fixture: the empty store (fresh database). -/
def storeEmpty : InboxStateStore := ⟨[], [], []⟩

/-- Fixture: archive row for `msgOne` first seen at `"t0"`. -/
def rowOne : ArchiveRow := ⟨some "c1", some "s1", none, msgOne, "t0", "t0"⟩

/-- Fixture: a store holding a cursor for scope `"k1"`, `msgOne` in the
archive and a seen-mark for `("k1", msgOne)`. -/
def storeSeeded : InboxStateStore :=
  ⟨[("k1", ⟨"p", "a", ["c1"], none, some "2026-01-01T00:00:00.000Z", "t0"⟩)],
   [(("a", "m1"), rowOne)],
   [(("k1", "a", "m1"), "t0")]⟩

/-! ### Claim C2 — `persistMessage` novelty flags -/

/-- C2: `persistMessage` returns the two novelty flags independently.  A
second call with the same message and scope key returns
`isNewInStore = false` and `isNewForScope = false` (for any prior store);
starting from a store that has never seen the message, persisting it under
two different scope keys returns `isNewForScope = true` both times and
`isNewInStore = true` only for the first call. -/
theorem persistMessage_novelty_flags (store : InboxStateStore) (k1 k2 : String)
    (message : Message) (n1 n2 : String)
    (hkeys : k1 ≠ k2)
    (hstore : alookup (message.account_id, message.id) store.inbox_message_store = none)
    (hseen1 : alookup (k1, message.account_id, message.id) store.scope_message_seen = none)
    (hseen2 : alookup (k2, message.account_id, message.id) store.scope_message_seen = none) :
    (∀ (other : InboxStateStore) (m1 m2 : String),
       (persistMessage (persistMessage other m1 k1 message).2 m2 k1 message).1
         = ⟨false, false⟩)
    ∧ (persistMessage store n1 k1 message).1 = ⟨true, true⟩
    ∧ (persistMessage (persistMessage store n1 k1 message).2 n2 k2 message).1
        = ⟨true, false⟩ := by
  refine ⟨?_, ?_, ?_⟩
  · intro other m1 m2
    refine persistedResult_eq _ _ _ ?_ ?_
    · rw [persistMessage_isNewForScope]
      cases ho : alookup (k1, message.account_id, message.id)
          (persistMessage other m1 k1 message).2.scope_message_seen with
      | none =>
        have := persistMessage_seen_lookup_self other m1 k1 message
        rw [ho] at this
        exact absurd this (by simp)
      | some v => rfl
    · rw [persistMessage_isNewInStore, persistMessage_archive_lookup]
      rfl
  · refine persistedResult_eq _ _ _ ?_ ?_
    · rw [persistMessage_isNewForScope, hseen1]; rfl
    · rw [persistMessage_isNewInStore, hstore]; rfl
  · refine persistedResult_eq _ _ _ ?_ ?_
    · rw [persistMessage_isNewForScope,
        persistMessage_seen_lookup_other _ _ _ _ _ (by simp [Ne.symm hkeys]), hseen2]
      rfl
    · rw [persistMessage_isNewInStore, persistMessage_archive_lookup]
      rfl

/-- Witness for C2 at a concrete store, message and scope keys. -/
theorem persistMessage_novelty_flags_witness :
    (persistMessage storeEmpty "t1" "k1" msgOne).1 = ⟨true, true⟩
    ∧ (persistMessage (persistMessage storeEmpty "t1" "k1" msgOne).2 "t2" "k2" msgOne).1
        = ⟨true, false⟩ := by
  have h := persistMessage_novelty_flags storeEmpty "k1" "k2" msgOne "t1" "t2"
    (by decide) rfl rfl rfl
  exact ⟨h.2.1, h.2.2⟩

/-! ### Claim C8 — `resetScope` frame conditions -/

/-- C8: `resetScope` deletes only the scope's cursor row and seen-marks.
The global archive is untouched, `getCursor` then returns none, a message
previously delivered to that scope is scope-novel again on the next
`persistMessage`, and re-persisting an archived message preserves its
original `first_seen_at`. -/
theorem resetScope_frame (store : InboxStateStore) (scopeKey now : String)
    (message : Message) :
    (resetScope store scopeKey).inbox_message_store = store.inbox_message_store
    ∧ getCursor (resetScope store scopeKey) scopeKey = none
    ∧ (persistMessage (resetScope store scopeKey) now scopeKey message).1.isNewForScope
        = true
    ∧ (∀ row, alookup (message.account_id, message.id) store.inbox_message_store = some row →
         ∃ row', alookup (message.account_id, message.id)
             (persistMessage (resetScope store scopeKey) now scopeKey
               message).2.inbox_message_store = some row'
           ∧ row'.first_seen_at = row.first_seen_at) := by
  refine ⟨rfl, ?_, ?_, ?_⟩
  · show (match alookup scopeKey (resetScope store scopeKey).watch_scope_state with
          | none => none
          | some row => row.since_cursor) = none
    have : alookup scopeKey (resetScope store scopeKey).watch_scope_state = none :=
      alookup_filter_ne_key scopeKey store.watch_scope_state
    rw [this]
  · rw [persistMessage_isNewForScope]
    have : alookup (scopeKey, message.account_id, message.id)
        (resetScope store scopeKey).scope_message_seen = none :=
      alookup_filter_fst_ne scopeKey message.account_id message.id store.scope_message_seen
    rw [this]
    rfl
  · intro row hrow
    have harch : alookup (message.account_id, message.id)
        (resetScope store scopeKey).inbox_message_store = some row := hrow
    have := persistMessage_archive_lookup (resetScope store scopeKey) now scopeKey message
    rw [harch] at this
    exact ⟨archiveUpdate message now row, this, rfl⟩

/-- Witness for C8 at a concrete seeded store. -/
theorem resetScope_frame_witness :
    (resetScope storeSeeded "k1").inbox_message_store = storeSeeded.inbox_message_store
    ∧ getCursor (resetScope storeSeeded "k1") "k1" = none
    ∧ (persistMessage (resetScope storeSeeded "k1") "t9" "k1" msgOne).1.isNewForScope = true
    ∧ ∃ row', alookup ("a", "m1")
          (persistMessage (resetScope storeSeeded "k1") "t9" "k1"
            msgOne).2.inbox_message_store = some row'
        ∧ row'.first_seen_at = "t0" := by
  have h := resetScope_frame storeSeeded "k1" "t9" msgOne
  obtain ⟨row', hrow', hfs⟩ := h.2.2.2 rowOne rfl
  exact ⟨h.1, h.2.1, h.2.2.1, row', hrow', by rw [hfs]; rfl⟩

/-! ### Claim C5 — scope-key invariance -/

theorem mem_jsSetDedup (x : String) : ∀ (l : List String), x ∈ jsSetDedup l ↔ x ∈ l := by
  intro l
  induction l using jsSetDedup.induct with
  | case1 => simp [jsSetDedup]
  | case2 y ys ih =>
    rw [jsSetDedup]
    by_cases hxy : x = y
    · simp [hxy]
    · simp only [List.mem_cons, hxy, false_or, ih, List.mem_filter]
      constructor
      · exact fun h => h.1
      · exact fun h => ⟨h, by simpa using hxy⟩

theorem nodup_jsSetDedup : ∀ (l : List String), (jsSetDedup l).Nodup := by
  intro l
  induction l using jsSetDedup.induct with
  | case1 => simp [jsSetDedup]
  | case2 y ys ih =>
    rw [jsSetDedup]
    refine List.nodup_cons.2 ⟨?_, ih⟩
    intro hmem
    rw [mem_jsSetDedup] at hmem
    exact (by simpa using (List.mem_filter.1 hmem).2 : y ≠ y) rfl

theorem normalizeChatIds_eq_of_mem_iff (l1 l2 : List String)
    (h : ∀ x, x ∈ l1 ↔ x ∈ l2) :
    normalizeChatIds l1 = normalizeChatIds l2 := by
  have hmem : ∀ x,
      x ∈ jsSetDedup ((l1.map String.trim).filter fun chatId => chatId.length != 0)
        ↔ x ∈ jsSetDedup ((l2.map String.trim).filter fun chatId => chatId.length != 0) := by
    intro x
    rw [mem_jsSetDedup, mem_jsSetDedup, List.mem_filter, List.mem_filter,
      List.mem_map, List.mem_map]
    constructor
    · rintro ⟨⟨a, ha, rfl⟩, hlen⟩
      exact ⟨⟨a, (h a).1 ha, rfl⟩, hlen⟩
    · rintro ⟨⟨a, ha, rfl⟩, hlen⟩
      exact ⟨⟨a, (h a).2 ha, rfl⟩, hlen⟩
  have hperm :
      List.Perm
        (jsSetDedup ((l1.map String.trim).filter fun chatId => chatId.length != 0))
        (jsSetDedup ((l2.map String.trim).filter fun chatId => chatId.length != 0)) := by
    refine List.perm_of_nodup_nodup_toFinset_eq (nodup_jsSetDedup _) (nodup_jsSetDedup _) ?_
    ext x
    simp only [List.mem_toFinset]
    exact hmem x
  unfold normalizeChatIds
  refine List.eq_of_perm_of_sorted
    (((List.perm_insertionSort _ _).trans hperm).trans
      (List.perm_insertionSort _ _).symm)
    (List.sorted_insertionSort _ _) (List.sorted_insertionSort _ _)

/-- C5: the inbox scope key built from a normalized chat-id list is a pure
function of the scope fields, invariant under reordering and duplication of
the conversation-id list (any two input lists with the same elements yield
the identical key). -/
theorem buildInboxScopeKey_invariant (scope : InboxScopeDescriptor) (l1 l2 : List String)
    (h : ∀ x, x ∈ l1 ↔ x ∈ l2) :
    buildInboxScopeKey { scope with chatIds := normalizeChatIds l1 }
      = buildInboxScopeKey { scope with chatIds := normalizeChatIds l2 } := by
  rw [normalizeChatIds_eq_of_mem_iff l1 l2 h]

/-- Witness for C5: a permuted, duplicated, blank-padded chat-id list yields
the same scope key. -/
theorem buildInboxScopeKey_invariant_witness :
    buildInboxScopeKey { profileName := "p", accountId := "acct",
                         chatIds := normalizeChatIds ["b", "a", "a", "b"],
                         senderId := none, customStateKey := none }
      = buildInboxScopeKey { profileName := "p", accountId := "acct",
                             chatIds := normalizeChatIds ["a", "b"],
                             senderId := none, customStateKey := none } :=
  buildInboxScopeKey_invariant
    ⟨"p", "acct", [], none, none⟩ ["b", "a", "a", "b"] ["a", "b"]
    (by intro x; simp only [List.mem_cons, List.not_mem_nil, or_false]; tauto)

/-! ### Claim C7 — pagination termination -/

theorem collectPagedMessagesGo_pages_le (fetchPage : Nat → Option String → PageResponse) :
    ∀ (fuel page : Nat) (cursor : Option String) (seenCursors : List String)
      (collected : List Message),
      (collectPagedMessagesGo fetchPage fuel page cursor seenCursors collected).2 ≤ fuel := by
  intro fuel
  induction fuel with
  | zero => intro page cursor seen acc; simp [collectPagedMessagesGo]
  | succ n ih =>
    intro page cursor seen acc
    rw [collectPagedMessagesGo]
    cases (fetchPage page cursor).cursor with
    | none => simp
    | some nextCursor =>
      dsimp only
      split
      · simp
      · simpa using Nat.succ_le_succ (ih (page + 1) (some nextCursor)
          (nextCursor :: seen) (acc ++ (fetchPage page cursor).items))

/-- C7: the pagination loop of `collectPagedMessages` always terminates: it
requests at most `maxPages` pages, and a provider that always returns the
same continuation cursor causes termination after at most one repeat (at
most two pages requested). -/
theorem collectPagedMessages_terminates (fetchPage : Nat → Option String → PageResponse)
    (maxPages : Nat) :
    (collectPagedMessages fetchPage maxPages).2 ≤ maxPages
    ∧ (∀ c : String, (∀ page cursor, (fetchPage page cursor).cursor = some c) →
        (collectPagedMessages fetchPage maxPages).2 ≤ 2) := by
  constructor
  · exact collectPagedMessagesGo_pages_le fetchPage maxPages 0 none [] []
  · intro c hc
    unfold collectPagedMessages
    match maxPages with
    | 0 => simp [collectPagedMessagesGo]
    | 1 =>
      rw [collectPagedMessagesGo, hc]
      dsimp only
      split
      · simp
      · rw [collectPagedMessagesGo]
        simp
    | n + 2 =>
      rw [collectPagedMessagesGo, hc]
      dsimp only
      split
      · simp
      · rw [collectPagedMessagesGo, hc]
        dsimp only
        have h1 : c.trim.length = 0 ∨ List.contains [c] c = true := by
          right; simp
        rw [if_pos h1]

/-- Witness for C7: a provider that always answers with cursor `"c"` is cut
off after two pages even with a large page budget. -/
theorem collectPagedMessages_terminates_witness :
    (collectPagedMessages (fun _ _ => ⟨[], some "c"⟩) 100).2 ≤ 2 :=
  (collectPagedMessages_terminates (fun _ _ => ⟨[], some "c"⟩) 100).2 "c" fun _ _ => rfl

/-! ### Claim C3 — cursor arithmetic -/

theorem le_foldl_max {α : Type} [LinearOrder α] (l : List α) :
    ∀ a : α, a ≤ l.foldl max a := by
  induction l with
  | nil => intro a; exact le_refl a
  | cons b bs ih =>
    intro a
    exact le_trans (le_max_left a b) (ih (max a b))

theorem le_foldl_max_of_mem {α : Type} [LinearOrder α] {x : α} {l : List α}
    (hx : x ∈ l) : ∀ a : α, x ≤ l.foldl max a := by
  induction l with
  | nil => cases hx
  | cons b bs ih =>
    intro a
    rcases List.mem_cons.1 hx with h | h
    · subst h
      exact le_trans (le_max_right a x) (le_foldl_max bs (max a x))
    · exact ih h (max a b)

theorem foldl_max_le {α : Type} [LinearOrder α] {M : α} (l : List α) :
    ∀ a : α, a ≤ M → (∀ x ∈ l, x ≤ M) → l.foldl max a ≤ M := by
  induction l with
  | nil => intro a ha _; exact ha
  | cons b bs ih =>
    intro a ha hl
    exact ih (max a b) (max_le ha (hl b (List.mem_cons_self b bs)))
      fun x hx => hl x (List.mem_cons_of_mem b hx)

/-- C3 (amended): `computeNextSinceCursor` returns the maximum of all
parsable batch timestamps and the parsable current cursor, minus the
1-second overlap window, clamped to never go below zero on the epoch — so
for a current cursor `C` and a batch maximum `M > C` the new cursor is
`max 0 (M − overlapWindow)` (equal to `M − overlapWindow` only above the
clamp); with no parsable batch timestamp and no current cursor the output
is absent. -/
theorem computeNextSinceCursor_spec (dateParse : String → Option Int)
    (currentSince : Option String) (timestamps : List (Option String)) :
    (∀ M, M ∈ cursorCandidates dateParse currentSince timestamps →
       (∀ x ∈ cursorCandidates dateParse currentSince timestamps, x ≤ M) →
       computeNextSinceCursor dateParse currentSince timestamps
         = some (Sum.inr (max 0 (M - CURSOR_OVERLAP_MS))))
    ∧ (timestamps.filterMap (parseTimestampEntry dateParse) = [] → currentSince = none →
       computeNextSinceCursor dateParse currentSince timestamps = none)
    ∧ (∀ s C M, currentSince = some s → s ≠ "" → dateParse s = some C →
       M ∈ timestamps.filterMap (parseTimestampEntry dateParse) →
       (∀ x ∈ timestamps.filterMap (parseTimestampEntry dateParse), x ≤ M) →
       C < M →
       computeNextSinceCursor dateParse currentSince timestamps
         = some (Sum.inr (max 0 (M - CURSOR_OVERLAP_MS)))) := by
  have main : ∀ M, M ∈ cursorCandidates dateParse currentSince timestamps →
      (∀ x ∈ cursorCandidates dateParse currentSince timestamps, x ≤ M) →
      computeNextSinceCursor dateParse currentSince timestamps
        = some (Sum.inr (max 0 (M - CURSOR_OVERLAP_MS))) := by
    intro M hM hub
    unfold computeNextSinceCursor
    cases hcand : cursorCandidates dateParse currentSince timestamps with
    | nil => rw [hcand] at hM; cases hM
    | cons c cs =>
      rw [hcand] at hM hub
      have hnewest : cs.foldl max c = M := by
        refine le_antisymm ?_ ?_
        · exact foldl_max_le cs c (hub c (List.mem_cons_self c cs))
            fun x hx => hub x (List.mem_cons_of_mem c hx)
        · rcases List.mem_cons.1 hM with h | h
          · subst h; exact le_foldl_max cs M
          · exact le_foldl_max_of_mem h c
      simp only [hnewest]
  refine ⟨main, ?_, ?_⟩
  · intro hbatch hcur
    subst hcur
    unfold computeNextSinceCursor
    have : cursorCandidates dateParse none timestamps = [] := by
      unfold cursorCandidates
      rw [hbatch]
      rfl
    rw [this]
    rfl
  · intro s C M hcur hs hparse hMmem hMub hCM
    refine main M ?_ ?_
    · unfold cursorCandidates
      rw [hcur]
      simp only [hs, if_neg, hparse]
      exact List.mem_append_left _ hMmem
    · intro x hx
      unfold cursorCandidates at hx
      rw [hcur] at hx
      simp only [hs, if_neg, hparse] at hx
      rcases List.mem_append.1 hx with h | h
      · exact hMub x h
      · rcases List.mem_singleton.1 h with rfl
        exact le_of_lt hCM

/-- Witness for C3 (amended): a batch maximum of 500 ms with a current
cursor of 0 ms yields the clamped cursor 0 ms. -/
theorem computeNextSinceCursor_spec_witness :
    computeNextSinceCursor dateParseEpoch (some "1970-01-01T00:00:00.000Z")
        [some "1970-01-01T00:00:00.500Z"]
      = some (Sum.inr 0) := by
  have h := (computeNextSinceCursor_spec dateParseEpoch
    (some "1970-01-01T00:00:00.000Z") [some "1970-01-01T00:00:00.500Z"]).2.2
    "1970-01-01T00:00:00.000Z" 0 500 rfl (by decide)
    (by with_unfolding_all decide) (by with_unfolding_all decide)
    (by with_unfolding_all decide) (by decide)
  simpa using h

/-- Counterexample for C3 as stated: near the epoch the claim's
`new cursor = M − overlapWindow` is violated — `M = 500`, `C = 0`, the code
returns 0 ms (the clamp), not `−500` ms. -/
theorem computeNextSinceCursor_claim_counterexample :
    computeNextSinceCursor dateParseEpoch (some "1970-01-01T00:00:00.000Z")
        [some "1970-01-01T00:00:00.500Z"]
      = some (Sum.inr 0)
    ∧ (0 : Int) ≠ 500 - CURSOR_OVERLAP_MS := by
  constructor
  · with_unfolding_all decide
  · decide

/-! ### Claims C1 and C10 — the resolution decision -/

theorem decideResolution_characterization (query : String)
    (ranked : List ContactCandidate) (threshold margin : ℚ) :
    ((decideResolution query ranked threshold margin).status = .resolved →
      ∃ top, (decideResolution query ranked threshold margin).selected = some top
        ∧ ranked.head? = some top
        ∧ threshold ≤ top.totalScore
        ∧ ∀ runnerUp, ranked[1]? = some runnerUp →
            margin ≤ top.totalScore - runnerUp.totalScore)
    ∧ (∀ top, ranked.head? = some top →
        0.35 ≤ top.totalScore →
        threshold ≤ top.totalScore →
        (∀ runnerUp, ranked[1]? = some runnerUp →
          margin ≤ top.totalScore - runnerUp.totalScore) →
        (ranked[1]? = none → margin ≤ top.totalScore) →
        (decideResolution query ranked threshold margin).status = .resolved
        ∧ (decideResolution query ranked threshold margin).selected = some top) := by
  unfold decideResolution
  cases hh : ranked.head? with
  | none =>
    refine ⟨fun h => absurd h (by simp), fun top htop => ?_⟩
    cases htop
  | some top =>
    dsimp only
    by_cases hfloor : top.totalScore < 0.35
    · rw [if_pos hfloor]
      refine ⟨fun h => absurd h (by simp), fun top' htop' h035 _ _ _ => ?_⟩
      injection htop' with he
      subst he
      exact absurd h035 (not_le.2 hfloor)
    · rw [if_neg hfloor]
      cases h2 : ranked[1]? with
      | none =>
        dsimp only
        by_cases hres : threshold ≤ top.totalScore ∧ margin ≤ top.totalScore
        · rw [if_pos hres]
          refine ⟨fun _ => ⟨top, rfl, rfl, hres.1, ?_⟩, fun top' htop' _ _ _ _ => ?_⟩
          · intro ru hru; cases hru
          · injection htop' with he
            subst he
            exact ⟨rfl, rfl⟩
        · rw [if_neg hres]
          refine ⟨fun h => absurd h (by simp), fun top' htop' _ hth _ hgap => ?_⟩
          injection htop' with he
          subst he
          exact absurd ⟨hth, hgap rfl⟩ hres
      | some second =>
        dsimp only
        by_cases hres : threshold ≤ top.totalScore
          ∧ margin ≤ top.totalScore - second.totalScore
        · rw [if_pos hres]
          refine ⟨fun _ => ⟨top, rfl, rfl, hres.1, ?_⟩, fun top' htop' _ _ _ _ => ?_⟩
          · intro ru hru
            injection hru with he
            subst he
            exact hres.2
          · injection htop' with he
            subst he
            exact ⟨rfl, rfl⟩
        · rw [if_neg hres]
          refine ⟨fun h => absurd h (by simp), fun top' htop' _ hth hgap _ => ?_⟩
          injection htop' with he
          subst he
          exact absurd ⟨hth, hgap second rfl⟩ hres

theorem decideResolution_fields (query : String) (ranked : List ContactCandidate)
    (threshold margin : ℚ) :
    (decideResolution query ranked threshold margin).candidates = ranked
    ∧ (decideResolution query ranked threshold margin).threshold = threshold
    ∧ (decideResolution query ranked threshold margin).margin = margin := by
  refine ⟨?_, ?_, ?_⟩ <;>
    (unfold decideResolution
     cases ranked.head? with
     | none => rfl
     | some top =>
       dsimp only
       split
       · rfl
       · split <;> rfl)

theorem decideResolution_shape (query : String) (ranked : List ContactCandidate)
    (threshold margin : ℚ) :
    ((decideResolution query ranked threshold margin).status = .not_found →
       (decideResolution query ranked threshold margin).selected = none)
    ∧ ((decideResolution query ranked threshold margin).status ≠ .not_found →
       (decideResolution query ranked threshold margin).selected = ranked.head?)
    ∧ (decideResolution query ranked threshold margin).candidates = ranked := by
  unfold decideResolution
  cases hh : ranked.head? with
  | none => exact ⟨fun _ => rfl, fun h => absurd rfl h, rfl⟩
  | some top =>
    dsimp only
    split
    · exact ⟨fun _ => rfl, fun h => absurd rfl h, rfl⟩
    · split
      · exact ⟨fun h => ResolutionStatus.noConfusion h, fun _ => rfl, rfl⟩
      · exact ⟨fun h => ResolutionStatus.noConfusion h, fun _ => rfl, rfl⟩

/-- C1 (amended): `resolveContacts` returns `resolved` exactly under the
decision policy of the code.  Forward: `resolved` implies a selected top
candidate with `totalScore ≥ threshold` and, when a runner-up exists,
a gap of at least `margin`.  Converse: a top candidate with
`totalScore ≥ 0.35`, `totalScore ≥ threshold`, the margin gap over the
runner-up when one exists, and `totalScore ≥ margin` when none exists,
yields `resolved` with that top candidate selected. -/
theorem resolveContacts_resolved_characterization (dateParse : String → Option Int)
    (query : String) (attendees : List ChatAttendee) (chats : List Chat)
    (qmdResult : QmdQueryResult) (options : ResolverOptions) (r : ContactResolution)
    (hr : r = resolveContacts dateParse query attendees chats qmdResult options) :
    (r.status = .resolved →
      ∃ top, r.selected = some top ∧ r.candidates.head? = some top
        ∧ r.threshold ≤ top.totalScore
        ∧ ∀ runnerUp, r.candidates[1]? = some runnerUp →
            r.margin ≤ top.totalScore - runnerUp.totalScore)
    ∧ (∀ top, r.candidates.head? = some top →
        0.35 ≤ top.totalScore →
        r.threshold ≤ top.totalScore →
        (∀ runnerUp, r.candidates[1]? = some runnerUp →
          r.margin ≤ top.totalScore - runnerUp.totalScore) →
        (r.candidates[1]? = none → r.margin ≤ top.totalScore) →
        r.status = .resolved ∧ r.selected = some top) := by
  subst hr
  simp only [resolveContacts]
  rw [(decideResolution_fields query _ _ _).1, (decideResolution_fields query _ _ _).2.1,
    (decideResolution_fields query _ _ _).2.2]
  exact decideResolution_characterization query _ _ _

/-- Witness for C1 (amended): a lone exact-provider-id candidate with
`threshold = margin = 0.5` resolves. -/
theorem resolveContacts_resolved_characterization_witness :
    (resolveContacts dateParseNone "x" [attendeeX] [] qmdUnavailable
      ⟨some 0.5, some 0.5, none⟩).status = .resolved := by
  have h := (resolveContacts_resolved_characterization dateParseNone "x" [attendeeX] []
    qmdUnavailable ⟨some 0.5, some 0.5, none⟩ _ rfl).2
    ⟨attendeeX, 1, 0, 0, 0.75, ["exact_id"]⟩
    (by with_unfolding_all decide)
    (by with_unfolding_all decide)
    (by with_unfolding_all decide)
    (by
      intro ru hru
      have hnone : (resolveContacts dateParseNone "x" [attendeeX] [] qmdUnavailable
          ⟨some 0.5, some 0.5, none⟩).candidates[1]? = none := by
        with_unfolding_all decide
      rw [hnone] at hru
      cases hru)
    (fun _ => by with_unfolding_all decide)
  exact h.1

/-- Counterexample for C1 as stated: with no runner-up the code still
requires `totalScore ≥ margin` (`delta` falls back to the top score).  A
lone candidate with `totalScore = 0.75 ≥ threshold = 0.5` and
`margin = 0.8` satisfies the claim's converse conditions yet is reported
`ambiguous`, not `resolved`. -/
theorem resolveContacts_resolved_claim_counterexample :
    (resolveContacts dateParseNone "x" [attendeeX] [] qmdUnavailable
        ⟨some 0.5, some 0.8, none⟩).candidates.head?
      = some ⟨attendeeX, 1, 0, 0, 0.75, ["exact_id"]⟩
    ∧ (0.35 : ℚ) ≤ 0.75
    ∧ (resolveContacts dateParseNone "x" [attendeeX] [] qmdUnavailable
        ⟨some 0.5, some 0.8, none⟩).threshold ≤ 0.75
    ∧ (resolveContacts dateParseNone "x" [attendeeX] [] qmdUnavailable
        ⟨some 0.5, some 0.8, none⟩).candidates[1]? = none
    ∧ (resolveContacts dateParseNone "x" [attendeeX] [] qmdUnavailable
        ⟨some 0.5, some 0.8, none⟩).status ≠ .resolved := by
  with_unfolding_all decide

/-- C10: a `not_found` resolution carries no selected candidate, while
`resolved` and `ambiguous` resolutions carry `selected` equal to the head
of the (at most `maxCandidates`-long) candidates list. -/
theorem resolveContacts_selected_shape (dateParse : String → Option Int)
    (query : String) (attendees : List ChatAttendee) (chats : List Chat)
    (qmdResult : QmdQueryResult) (options : ResolverOptions) (r : ContactResolution)
    (hr : r = resolveContacts dateParse query attendees chats qmdResult options) :
    (r.status = .not_found → r.selected = none)
    ∧ (r.status ≠ .not_found → r.selected = r.candidates.head?)
    ∧ r.candidates.length ≤ options.maxCandidates.getD 5 := by
  subst hr
  simp only [resolveContacts]
  refine ⟨(decideResolution_shape query _ _ _).1, ?_, ?_⟩
  · intro h
    rw [(decideResolution_fields query _ _ _).1]
    exact (decideResolution_shape query _ _ _).2.1 h
  · rw [(decideResolution_fields query _ _ _).1]
    exact List.length_take_le _ _

/-- Witness for C10: an empty attendee pool yields `not_found` with no
selected candidate. -/
theorem resolveContacts_selected_shape_witness :
    (resolveContacts dateParseNone "q" [] [] qmdUnavailable ⟨none, none, none⟩).selected
      = none := by
  exact (resolveContacts_selected_shape dateParseNone "q" [] [] qmdUnavailable
    ⟨none, none, none⟩ _ rfl).1 (by with_unfolding_all decide)

/-! ### Claim C4 — exact provider-id resolution -/

theorem lexicalScore_exact_provider (query : String) (a : ChatAttendee)
    (hlen : (normalize query).length ≠ 0)
    (hid : normalize query = normalize a.provider_id) :
    lexicalScore query a = ⟨1, ["exact_id"]⟩ := by
  unfold lexicalScore
  rw [if_neg hlen, if_pos (Or.inr hid)]

/-- C4 (amended): when the only non-self attendee has normalized provider id
equal to the (nonempty) normalized query, with no chat history and an
unavailable oracle, `resolveContacts` resolves to that candidate with match
reasons `["exact_id"]` — for every `threshold ≤ 0.75` and `margin ≤ 0.75`
(its total score is `0.75 = 0.75·lexical`, not `1`, because the lexical
signal carries weight `0.75` in the blend). -/
theorem resolveContacts_exact_provider_amended (dateParse : String → Option Int)
    (query : String) (attendees : List ChatAttendee) (a : ChatAttendee)
    (qmdResult : QmdQueryResult) (threshold margin : ℚ) (r : ContactResolution)
    (hfilter : attendees.filter (fun x => x.is_self != 1) = [a])
    (hlen : (normalize query).length ≠ 0)
    (hid : normalize query = normalize a.provider_id)
    (hqmd : qmdResult.available = false)
    (hth : threshold ≤ 0.75) (hmg : margin ≤ 0.75)
    (hr : r = resolveContacts dateParse query attendees [] qmdResult
      ⟨some threshold, some margin, none⟩) :
    r.status = .resolved ∧ r.selected = some ⟨a, 1, 0, 0, 0.75, ["exact_id"]⟩ := by
  subst hr
  have hqmd0 : qmdBoost a qmdResult = 0 := by
    unfold qmdBoost
    rw [if_pos (Or.inl hqmd)]
  have hrec : (alookup a.provider_id (buildRecencyScoreByProviderId dateParse [])).getD 0
      = (0 : ℚ) := rfl
  have hscore : scoreAttendee query (buildRecencyScoreByProviderId dateParse []) qmdResult a
      = ⟨a, 1, 0, 0, 0.75, ["exact_id"]⟩ := by
    simp only [scoreAttendee, lexicalScore_exact_provider query a hlen hid, hqmd0, hrec]
    norm_num
  have hrank : rankContacts dateParse query attendees [] qmdResult
      = [⟨a, 1, 0, 0, 0.75, ["exact_id"]⟩] := by
    simp only [rankContacts, hfilter, List.map_singleton, hscore]
    simp [List.insertionSort, List.orderedInsert]
  have htake : (rankContacts dateParse query attendees [] qmdResult).take 5
      = [⟨a, 1, 0, 0, 0.75, ["exact_id"]⟩] := by
    rw [hrank]
    rfl
  have hchar := (decideResolution_characterization query
    [⟨a, 1, 0, 0, 0.75, ["exact_id"]⟩] threshold margin).2
    ⟨a, 1, 0, 0, 0.75, ["exact_id"]⟩ rfl (by norm_num) (by simpa using hth)
    (fun ru hru => by cases hru) (fun _ => by simpa using hmg)
  simp only [resolveContacts, Option.getD_some, Option.getD_none]
  rw [htake]
  exact hchar

/-- Witness for C4 (amended) at a concrete pool, query and thresholds. -/
theorem resolveContacts_exact_provider_amended_witness :
    (resolveContacts dateParseNone "x" [attendeeX] [] qmdUnavailable
      ⟨some 0.5, some 0.5, none⟩).selected = some ⟨attendeeX, 1, 0, 0, 0.75, ["exact_id"]⟩ := by
  exact (resolveContacts_exact_provider_amended dateParseNone "x" [attendeeX] attendeeX
    qmdUnavailable 0.5 0.5 _ rfl (by with_unfolding_all decide) rfl rfl
    (by with_unfolding_all decide) (by with_unfolding_all decide) rfl).2

/-- Counterexample for C4 as stated: with the default `threshold = 0.9 ≤ 1`
an exact provider-id match yields total `0.75 < 0.9`, so the status is
`ambiguous`, not `resolved`. -/
theorem resolveContacts_exact_provider_claim_counterexample :
    normalize "x" = normalize attendeeX.provider_id
    ∧ attendeeX.is_self ≠ 1
    ∧ (resolveContacts dateParseNone "x" [attendeeX] [] qmdUnavailable
        ⟨none, none, none⟩).threshold ≤ 1
    ∧ (resolveContacts dateParseNone "x" [attendeeX] [] qmdUnavailable
        ⟨none, none, none⟩).status ≠ .resolved := by
  with_unfolding_all decide

/-! ### Claim C6 — the lexical scoring policy -/

/-- C6: `lexicalScore` applies a first-match-wins priority policy with no
summation: exact id/provider-id equality scores `1` (`exact_id`); else a
provider-id substring match scores `0.95` (`provider_id_contains`); else
exact name equality scores `0.94` (`exact_name`); else a name substring
match scores `0.9` (`name_contains`); else the score is `0.88` times the
harmonic mean of token recall (`overlap / |query tokens|`) and token
precision (`overlap / |name tokens|`) with reason `token_overlap` when the
overlap is positive; and the score is `0` with no reasons for an empty
normalized query, empty token sets, or zero overlap. -/
theorem lexicalScore_policy (query : String) (a : ChatAttendee) :
    let qn := normalize query
    let nn := normalize a.name
    let idn := normalize a.id
    let pidn := normalize a.provider_id
    let qt := tokenize query
    let nt := tokenize a.name
    let overlapCount := (qt.filter fun token => nt.contains token).length
    (qn.length = 0 → lexicalScore query a = ⟨0, []⟩)
    ∧ (qn.length ≠ 0 → (qn = idn ∨ qn = pidn) →
        lexicalScore query a = ⟨1, ["exact_id"]⟩)
    ∧ (qn.length ≠ 0 → ¬(qn = idn ∨ qn = pidn) → strIncludes pidn qn = true →
        lexicalScore query a = ⟨0.95, ["provider_id_contains"]⟩)
    ∧ (qn.length ≠ 0 → ¬(qn = idn ∨ qn = pidn) → strIncludes pidn qn ≠ true →
        nn = qn → lexicalScore query a = ⟨0.94, ["exact_name"]⟩)
    ∧ (qn.length ≠ 0 → ¬(qn = idn ∨ qn = pidn) → strIncludes pidn qn ≠ true →
        nn ≠ qn → strIncludes nn qn = true →
        lexicalScore query a = ⟨0.9, ["name_contains"]⟩)
    ∧ (qn.length ≠ 0 → ¬(qn = idn ∨ qn = pidn) → strIncludes pidn qn ≠ true →
        nn ≠ qn → strIncludes nn qn ≠ true →
        qt ≠ [] → nt ≠ [] → overlapCount ≠ 0 →
        lexicalScore query a
          = ⟨0.88 * ((2 * ((overlapCount : ℚ) / (qt.length : ℚ))
                * ((overlapCount : ℚ) / (nt.length : ℚ)))
              / ((overlapCount : ℚ) / (qt.length : ℚ)
                + (overlapCount : ℚ) / (nt.length : ℚ))),
             ["token_overlap"]⟩)
    ∧ (qn.length ≠ 0 → ¬(qn = idn ∨ qn = pidn) → strIncludes pidn qn ≠ true →
        nn ≠ qn → strIncludes nn qn ≠ true →
        (qt = [] ∨ nt = [] ∨ overlapCount = 0) →
        lexicalScore query a = ⟨0, []⟩) := by
  refine ⟨?_, ?_, ?_, ?_, ?_, ?_, ?_⟩
  · intro h0
    unfold lexicalScore
    rw [if_pos h0]
  · intro h0 h1
    unfold lexicalScore
    rw [if_neg h0, if_pos h1]
  · intro h0 h1 h2
    unfold lexicalScore
    rw [if_neg h0, if_neg h1, if_pos h2]
  · intro h0 h1 h2 h3
    unfold lexicalScore
    rw [if_neg h0, if_neg h1, if_neg h2, if_pos h3]
  · intro h0 h1 h2 h3 h4
    unfold lexicalScore
    rw [if_neg h0, if_neg h1, if_neg h2, if_neg h3, if_pos h4]
  · intro h0 h1 h2 h3 h4 hqt hnt hov
    unfold lexicalScore
    rw [if_neg h0, if_neg h1, if_neg h2, if_neg h3, if_neg h4]
    have hq0 : ¬ ((tokenize query).length = 0 ∨ (tokenize a.name).length = 0) := by
      rintro (h | h)
      · exact hqt (List.length_eq_zero.1 h)
      · exact hnt (List.length_eq_zero.1 h)
    rw [if_neg hq0, if_neg hov]
    refine congrArg (fun s => LexicalResult.mk s ["token_overlap"]) ?_
    rw [mul_comm]
  · intro h0 h1 h2 h3 h4 hdeg
    unfold lexicalScore
    rw [if_neg h0, if_neg h1, if_neg h2, if_neg h3, if_neg h4]
    rcases hdeg with h | h | h
    · rw [if_pos (Or.inl (by rw [h]; rfl))]
    · rw [if_pos (Or.inr (by rw [h]; rfl))]
    · by_cases hq0 : (tokenize query).length = 0 ∨ (tokenize a.name).length = 0
      · rw [if_pos hq0]
      · rw [if_neg hq0, if_pos h]

/-- Witness for C6 at the token-overlap branch: query `"john sales"`
against the name `"Sales John"` matches only by token overlap. -/
theorem lexicalScore_policy_witness :
    (lexicalScore "john sales" ⟨"u1", "acct", "zz", "Sales John", 0⟩).matchedBy
      = ["token_overlap"] := by
  have h := (lexicalScore_policy "john sales" ⟨"u1", "acct", "zz", "Sales John", 0⟩).2.2.2.2.2.1
    (by with_unfolding_all decide) (by with_unfolding_all decide)
    (by with_unfolding_all decide) (by with_unfolding_all decide)
    (by with_unfolding_all decide) (by with_unfolding_all decide)
    (by with_unfolding_all decide) (by with_unfolding_all decide)
  rw [h]

/-! ### Claim C9 — score bounds -/

theorem foldl_min_le {α : Type} [LinearOrder α] (l : List α) :
    ∀ a : α, l.foldl min a ≤ a := by
  induction l with
  | nil => intro a; exact le_refl a
  | cons b bs ih =>
    intro a
    exact le_trans (ih (min a b)) (min_le_left a b)

theorem foldl_min_le_of_mem {α : Type} [LinearOrder α] {x : α} {l : List α}
    (hx : x ∈ l) : ∀ a : α, l.foldl min a ≤ x := by
  induction l with
  | nil => cases hx
  | cons b bs ih =>
    intro a
    rcases List.mem_cons.1 hx with h | h
    · subst h
      exact le_trans (foldl_min_le bs (min a x)) (min_le_right a x)
    · exact ih h (min a b)

theorem alookup_map_pair {κ α β : Type} [DecidableEq κ] (g : κ × α → β) (k : κ)
    (l : List (κ × α)) (v : β)
    (h : alookup k (l.map fun p => (p.1, g p)) = some v) :
    ∃ p, p ∈ l ∧ p.1 = k ∧ v = g p := by
  induction l with
  | nil => cases h
  | cons e rest ih =>
    obtain ⟨k', a⟩ := e
    by_cases hk : k' = k
    · rw [List.map_cons] at h
      rw [show alookup k (((k', a).1, g (k', a)) :: rest.map fun p => (p.1, g p))
          = some (g (k', a)) from by simp [alookup, hk]] at h
      injection h with hv
      exact ⟨(k', a), List.mem_cons_self _ _, hk, hv.symm⟩
    · rw [List.map_cons,
        show alookup k (((k', a).1, g (k', a)) :: rest.map fun p => (p.1, g p))
          = alookup k (rest.map fun p => (p.1, g p)) from by simp [alookup, hk]] at h
      obtain ⟨p, hp, hpk, hv⟩ := ih h
      exact ⟨p, List.mem_cons_of_mem _ hp, hpk, hv⟩

theorem lexicalScore_bounds (query : String) (a : ChatAttendee) :
    0 ≤ (lexicalScore query a).score ∧ (lexicalScore query a).score ≤ 1.76 := by
  simp only [lexicalScore]
  split_ifs with h0 h1 h2 h3 h4 h5 h6
  · constructor <;> norm_num
  · constructor <;> norm_num
  · constructor <;> norm_num
  · constructor <;> norm_num
  · constructor <;> norm_num
  · constructor <;> norm_num
  · constructor <;> norm_num
  · rcases not_or.1 h5 with ⟨hq, hn⟩
    have hqpos : (0 : ℚ) < ((tokenize query).length : ℚ) :=
      Nat.cast_pos.2 (Nat.pos_of_ne_zero hq)
    have hnpos : (0 : ℚ) < ((tokenize a.name).length : ℚ) :=
      Nat.cast_pos.2 (Nat.pos_of_ne_zero hn)
    have hopos : (0 : ℚ)
        < (((tokenize query).filter fun token =>
            (tokenize a.name).contains token).length : ℚ) :=
      Nat.cast_pos.2 (Nat.pos_of_ne_zero h6)
    have holes : (((tokenize query).filter fun token =>
          (tokenize a.name).contains token).length : ℚ)
        ≤ ((tokenize query).length : ℚ) :=
      Nat.cast_le.2 (List.length_filter_le _ _)
    have hr : (0 : ℚ) < (((tokenize query).filter fun token =>
          (tokenize a.name).contains token).length : ℚ) / ((tokenize query).length : ℚ) :=
      div_pos hopos hqpos
    have hp : (0 : ℚ) < (((tokenize query).filter fun token =>
          (tokenize a.name).contains token).length : ℚ) / ((tokenize a.name).length : ℚ) :=
      div_pos hopos hnpos
    have hr1 : (((tokenize query).filter fun token =>
          (tokenize a.name).contains token).length : ℚ) / ((tokenize query).length : ℚ) ≤ 1 :=
      (div_le_one hqpos).2 holes
    constructor
    · dsimp only
      positivity
    · dsimp only
      generalize hrq : (((tokenize query).filter fun token =>
          (tokenize a.name).contains token).length : ℚ) / ((tokenize query).length : ℚ) = r
        at hr hr1
      generalize hpq : (((tokenize query).filter fun token =>
          (tokenize a.name).contains token).length : ℚ) / ((tokenize a.name).length : ℚ) = p
        at hp
      have hrp : (0 : ℚ) < r + p := by linarith
      have hkey : (2 * r * p) / (r + p) ≤ 2 * r := by
        rw [div_le_iff₀ hrp]
        nlinarith [mul_self_nonneg r]
      have : (2 * r * p) / (r + p) * 0.88 ≤ 2 * r * 0.88 :=
        mul_le_mul_of_nonneg_right hkey (by norm_num)
      nlinarith

theorem buildRecency_bounds (dateParse : String → Option Int) (chats : List Chat)
    (pid : String) (v : ℚ)
    (h : alookup pid (buildRecencyScoreByProviderId dateParse chats) = some v) :
    0 ≤ v ∧ v ≤ 1 := by
  unfold buildRecencyScoreByProviderId at h
  cases hraw : buildRawRecency dateParse chats [] with
  | nil => rw [hraw] at h; cases h
  | cons e rest =>
    rw [hraw] at h
    obtain ⟨p, hp, hpk, hv⟩ := alookup_map_pair _ _ _ _ h
    by_cases heq : ((e :: rest).map Prod.snd).foldl max e.2
        = ((e :: rest).map Prod.snd).foldl min e.2
    · rw [if_pos heq] at hv
      subst hv
      constructor <;> norm_num
    · rw [if_neg heq] at hv
      subst hv
      have hmem : p.2 ∈ (e :: rest).map Prod.snd := List.mem_map_of_mem Prod.snd hp
      have hminle : ((e :: rest).map Prod.snd).foldl min e.2 ≤ p.2 :=
        foldl_min_le_of_mem hmem e.2
      have hlemax : p.2 ≤ ((e :: rest).map Prod.snd).foldl max e.2 :=
        le_foldl_max_of_mem hmem e.2
      have hminmax : ((e :: rest).map Prod.snd).foldl min e.2
          ≤ ((e :: rest).map Prod.snd).foldl max e.2 :=
        le_trans (foldl_min_le _ e.2) (le_foldl_max _ e.2)
      have hlt : ((e :: rest).map Prod.snd).foldl min e.2
          < ((e :: rest).map Prod.snd).foldl max e.2 :=
        lt_of_le_of_ne hminmax fun hcon => heq hcon.symm
      have hsub : (0 : ℚ) < (((((e :: rest).map Prod.snd).foldl max e.2 : ℤ)) : ℚ)
          - (((((e :: rest).map Prod.snd).foldl min e.2 : ℤ)) : ℚ) := by
        rw [sub_pos]
        exact_mod_cast hlt
      constructor
      · refine div_nonneg ?_ (le_of_lt hsub)
        rw [sub_nonneg]
        exact_mod_cast hminle
      · rw [div_le_one hsub]
        have hcast : ((p.2 : ℤ) : ℚ)
            ≤ (((((e :: rest).map Prod.snd).foldl max e.2 : ℤ)) : ℚ) := by
          exact_mod_cast hlemax
        linarith

theorem qmdBestFold_bounds (name providerId : String) (nameTokens : List String) :
    ∀ (hits : List QmdHit) (best : ℚ), 0 ≤ best → best ≤ 1 →
      0 ≤ qmdBestFold name providerId nameTokens hits best
      ∧ qmdBestFold name providerId nameTokens hits best ≤ 1 := by
  intro hits
  induction hits with
  | nil => intro best h0 h1; exact ⟨h0, h1⟩
  | cons hit rest ih =>
    intro best h0 h1
    rw [qmdBestFold]
    by_cases hpid : providerId.length > 0
        ∧ strIncludes (normalize (hit.text ++ " " ++ hit.source.getD "")) providerId = true
    · rw [if_pos hpid]
      exact ih _ (le_trans h0 (le_max_left _ _)) (max_le h1 (by norm_num))
    · rw [if_neg hpid]
      by_cases hname : name.length > 0
          ∧ strIncludes (normalize (hit.text ++ " " ++ hit.source.getD "")) name = true
      · rw [if_pos hname]
        exact ih _ (le_trans h0 (le_max_left _ _)) (max_le h1 (by norm_num))
      · rw [if_neg hname]
        by_cases htok : nameTokens.length > 0
        · rw [if_pos htok]
          refine ih _ (le_trans h0 (le_max_left _ _)) (max_le h1 ?_)
          have hnpos : (0 : ℚ) < (nameTokens.length : ℚ) := Nat.cast_pos.2 htok
          have hover : ((nameTokens.filter fun token =>
                strIncludes (normalize (hit.text ++ " " ++ hit.source.getD "")) token).length : ℚ)
              ≤ (nameTokens.length : ℚ) :=
            Nat.cast_le.2 (List.length_filter_le _ _)
          have hratio : ((nameTokens.filter fun token =>
                strIncludes (normalize (hit.text ++ " " ++ hit.source.getD "")) token).length : ℚ)
                / (nameTokens.length : ℚ) ≤ 1 :=
            (div_le_one hnpos).2 hover
          have hratio0 : (0 : ℚ) ≤ ((nameTokens.filter fun token =>
                strIncludes (normalize (hit.text ++ " " ++ hit.source.getD "")) token).length : ℚ)
                / (nameTokens.length : ℚ) :=
            div_nonneg (Nat.cast_nonneg _) (Nat.cast_nonneg _)
          nlinarith
        · rw [if_neg htok]
          exact ih best h0 h1

theorem qmdBoost_bounds (a : ChatAttendee) (qmdResult : QmdQueryResult) :
    0 ≤ qmdBoost a qmdResult ∧ qmdBoost a qmdResult ≤ 1 := by
  unfold qmdBoost
  split_ifs with h
  · constructor <;> norm_num
  · exact qmdBestFold_bounds _ _ _ _ 0 le_rfl (by norm_num)

/-- C9 (amended): for every candidate produced by `rankContacts`, the
recency and QMD scores lie in `[0, 1]`, but the lexical score is only
bounded by `[0, 1.76]` and the total score by `[0, 1.57]`: duplicated query
tokens can push the token "precision" `overlap / |name tokens|` above `1`,
so the `0.88`-scaled harmonic mean can exceed `1`. -/
theorem rankContacts_score_bounds (dateParse : String → Option Int) (query : String)
    (attendees : List ChatAttendee) (chats : List Chat) (qmdResult : QmdQueryResult)
    (c : ContactCandidate)
    (hc : c ∈ rankContacts dateParse query attendees chats qmdResult) :
    0 ≤ c.lexicalScore ∧ c.lexicalScore ≤ 1.76
    ∧ 0 ≤ c.recencyScore ∧ c.recencyScore ≤ 1
    ∧ 0 ≤ c.qmdScore ∧ c.qmdScore ≤ 1
    ∧ 0 ≤ c.totalScore ∧ c.totalScore ≤ 1.57 := by
  simp only [rankContacts] at hc
  rw [List.Perm.mem_iff (List.perm_insertionSort _ _)] at hc
  obtain ⟨a, hmem, rfl⟩ := List.mem_map.1 hc
  have hlex := lexicalScore_bounds query a
  have hqmd := qmdBoost_bounds a qmdResult
  have hrec : 0 ≤ (alookup a.provider_id
        (buildRecencyScoreByProviderId dateParse chats)).getD 0
      ∧ (alookup a.provider_id
        (buildRecencyScoreByProviderId dateParse chats)).getD 0 ≤ 1 := by
    cases halo : alookup a.provider_id (buildRecencyScoreByProviderId dateParse chats) with
    | none => constructor <;> norm_num
    | some v =>
      simpa using buildRecency_bounds dateParse chats a.provider_id v halo
  simp only [scoreAttendee]
  refine ⟨hlex.1, hlex.2, hrec.1, hrec.2, hqmd.1, hqmd.2, ?_, ?_⟩
  · have := hlex.1
    have := hrec.1
    have := hqmd.1
    nlinarith
  · have := hlex.2
    have := hrec.2
    have := hqmd.2
    nlinarith

/-- Witness for C9 (amended) at a concrete ranked candidate. -/
theorem rankContacts_score_bounds_witness :
    0 ≤ (⟨attendeeX, 1, 0, 0, 0.75, ["exact_id"]⟩ : ContactCandidate).lexicalScore
    ∧ (⟨attendeeX, 1, 0, 0, 0.75, ["exact_id"]⟩ : ContactCandidate).lexicalScore ≤ 1.76
    ∧ 0 ≤ (⟨attendeeX, 1, 0, 0, 0.75, ["exact_id"]⟩ : ContactCandidate).recencyScore
    ∧ (⟨attendeeX, 1, 0, 0, 0.75, ["exact_id"]⟩ : ContactCandidate).recencyScore ≤ 1
    ∧ 0 ≤ (⟨attendeeX, 1, 0, 0, 0.75, ["exact_id"]⟩ : ContactCandidate).qmdScore
    ∧ (⟨attendeeX, 1, 0, 0, 0.75, ["exact_id"]⟩ : ContactCandidate).qmdScore ≤ 1
    ∧ 0 ≤ (⟨attendeeX, 1, 0, 0, 0.75, ["exact_id"]⟩ : ContactCandidate).totalScore
    ∧ (⟨attendeeX, 1, 0, 0, 0.75, ["exact_id"]⟩ : ContactCandidate).totalScore ≤ 1.57 :=
  rankContacts_score_bounds dateParseNone "x" [attendeeX] [] qmdUnavailable
    ⟨attendeeX, 1, 0, 0, 0.75, ["exact_id"]⟩ (by with_unfolding_all decide)

/-- Counterexample for C9 as stated: the duplicated query `"a a a"` against
the single-token name `"a"` produces a ranked candidate with lexical score
`1.32 > 1` (recall `1`, "precision" `3`, harmonic mean `1.5`, scaled by
`0.88`). -/
theorem rankContacts_score_bounds_counterexample :
    ((rankContacts dateParseNone "a a a" [attendeeDup] [] qmdUnavailable).map
        ContactCandidate.lexicalScore) = [33 / 25]
    ∧ ¬ ((33 : ℚ) / 25 ≤ 1) := by
  constructor
  · with_unfolding_all decide
  · with_unfolding_all decide

end Unipile
